import Mathlib

/-!
Verification of `lld/ELF/BPSectionOrderer.h` (Balanced-Partitioning section
orderer adapter for the ELF port of lld).

The file shallowly embeds the adapter classes `ELFSymbol` and `ELFSection`
and their accessors.  Machine integers are modelled as `Nat` (no arithmetic
overflow is relevant to any property below: hash values are only compared,
sorted and deduplicated).  Fallible code — `llvm::ArrayRef::slice(N, M)`,
whose precondition is `N + M <= size()` (it asserts otherwise) — is
modelled with `Option`.

The underlying lld data structures (`Symbol`, `Defined`,
`InputSectionBase`, `InputFile`) are not part of the sources under
verification; they are modelled from the spec's data model (see the doc
comments below).
-/

namespace BPOrderer

/-- Modelled from the spec: an lld `Symbol`.  The spec exposes a symbol as a
name, an "is a defined symbol" capability (the `Defined` subclass, targeted
by `dyn_cast<Defined>`), and — for defined symbols — a resolved value, a
size, and the section that owns it (`Defined::section`, here an optional
section identity).  Non-defined symbols (undefined/external) carry only a
name. -/
inductive LldSymbol where
  | defined (name : String) (value : Nat) (size : Nat) (ownerSec : Option Nat)
  | notDefined (name : String)
deriving DecidableEq, Repr

/-- Modelled from the spec: an lld object file, exposing its ordered symbol
table `file->getSymbols()`. -/
structure ObjFile where
  symbols : List LldSymbol
deriving DecidableEq, Repr

/-- Modelled from the spec: an lld `InputSectionBase`.  Identity is a stable
handle (`id`); attributes are a name, a byte size, the `SHF_EXECINSTR` flag
bit, the raw content bytes (`content()`, possibly empty) and the containing
object file (`isec->file`). -/
structure InputSectionBase where
  id : Nat
  name : String
  size : Nat
  flagExecinstr : Bool
  content : List Nat
  file : ObjFile
deriving DecidableEq, Repr

/-- `ELFSymbol`: the adapter wrapper around a `const Symbol *`. -/
structure ELFSymbol where
  sym : LldSymbol
deriving DecidableEq, Repr

namespace ELFSymbol

/-- `ELFSymbol::getName`. -/
def getName (s : ELFSymbol) : String :=
  match s.sym with
  | .defined n _ _ _ => n
  | .notDefined n => n

/-- `ELFSymbol::asDefinedSymbol`: `dyn_cast<Defined>` — returns `this`
(i.e. the wrapper itself) when the wrapped symbol is a `Defined`, and null
(`none`) otherwise. -/
def asDefinedSymbol (s : ELFSymbol) : Option ELFSymbol :=
  match s.sym with
  | .defined _ _ _ _ => some s
  | .notDefined _ => none

/-- `ELFSymbol::getValue`: `d->value` for a `Defined`, `0` otherwise. -/
def getValue (s : ELFSymbol) : Nat :=
  match s.sym with
  | .defined _ v _ _ => v
  | .notDefined _ => 0

/-- `ELFSymbol::getSize`: `d->size` for a `Defined`, `0` otherwise. -/
def getSize (s : ELFSymbol) : Nat :=
  match s.sym with
  | .defined _ _ z _ => z
  | .notDefined _ => 0

end ELFSymbol

/-- Whether the wrapped symbol is a `Defined`. -/
def LldSymbol.isDefinedSym : LldSymbol → Bool
  | .defined _ _ _ _ => true
  | .notDefined _ => false

/-- The section identity owning the symbol (`Defined::section`), when any. -/
def LldSymbol.ownerId : LldSymbol → Option Nat
  | .defined _ _ _ o => o
  | .notDefined _ => none

/-- `ELFSection`: the adapter wrapper around a `const InputSectionBase *`.
The wrapper is always constructed over a live section, so the wrapped
pointer is modelled as always valid. -/
structure ELFSection where
  isec : InputSectionBase
deriving DecidableEq, Repr

/-- The mutable state the adapter touches when `getSymbols` runs: the
per-section `mutable symbolCache` member (keyed here by section identity;
an empty list stands for a not-yet-populated cache) and the function-local
`static std::vector<BPSymbol *> result` buffer that the returned
`ArrayRef` points into. -/
structure AdapterState where
  symbolCache : Nat → List ELFSymbol
  staticResult : List ELFSymbol

/-- The adapter state at process start: no cache populated, static buffer
empty. -/
def initialState : AdapterState :=
  { symbolCache := fun _ => [], staticResult := [] }

namespace ELFSection

/-- `ELFSection::getName`. -/
def getName (s : ELFSection) : String := s.isec.name

/-- `ELFSection::getSize`. -/
def getSize (s : ELFSection) : Nat := s.isec.size

/-- `ELFSection::isCodeSection`: `isec->flags & SHF_EXECINSTR`. -/
def isCodeSection (s : ELFSection) : Bool := s.isec.flagExecinstr

/-- `ELFSection::hasValidData`: `isec && !isec->content().empty()`.  The
null test on `isec` is always true in the model (the wrapper holds a live
section). -/
def hasValidData (s : ELFSection) : Bool := !s.isec.content.isEmpty

/-- `ELFSection::getSectionData`: `isec->content()`. -/
def getSectionData (s : ELFSection) : List Nat := s.isec.content

/-- `ELFSection::getSymbols`.  If the per-section `symbolCache` is empty it
is populated with a wrapper for every symbol of `isec->file->getSymbols()`
(the containing file's whole symbol table).  The function-local
`static std::vector result` is then cleared and refilled with the cache
contents, and the returned `ArrayRef` points into that static buffer.  The
call returns the list the `ArrayRef` denotes at return time together with
the updated state; a previously returned `ArrayRef` denotes whatever
`staticResult` holds in the current state. -/
def getSymbols (s : ELFSection) (st : AdapterState) :
    List ELFSymbol × AdapterState :=
  let cache :=
    if st.symbolCache s.isec.id = [] then
      s.isec.file.symbols.map ELFSymbol.mk
    else
      st.symbolCache s.isec.id
  (cache,
   { symbolCache := fun i => if i = s.isec.id then cache else st.symbolCache i,
     staticResult := cache })

end ELFSection

/-- Modelled from the spec: the ordered list of symbols a section owns —
the symbols of the containing file whose owning section
(`Defined::section`) is this section. -/
def ownedSymbols (s : ELFSection) : List ELFSymbol :=
  (s.isec.file.symbols.filter
    (fun sym => sym.ownerId = some s.isec.id)).map ELFSymbol.mk

/-- `constexpr unsigned windowSize = 4` in `ELFSection::getSectionHash`. -/
def windowSize : Nat := 4

/-- `llvm::ArrayRef::slice(N, M)`: chops off the first `N` elements and
keeps `M`; its precondition is `N + M <= size()` (asserted in the source),
modelled by returning `none` when it is violated. -/
def arraySlice (xs : List Nat) (n m : Nat) : Option (List Nat) :=
  if n + m ≤ xs.length then some ((xs.drop n).take m) else none

/-- The content-hash loop of `getSectionHash`: for each index `i` of the
supplied index list, take `content().slice(i, windowSize)` and push its
`xxHash64`; fails as soon as a slice is out of bounds. -/
def hashLoop (xxHash64 : List Nat → Nat) (content : List Nat) :
    List Nat → Option (List Nat)
  | [] => some []
  | i :: is =>
    match arraySlice content i windowSize with
    | none => none
    | some w =>
      match hashLoop xxHash64 content is with
      | none => none
      | some rest => some (xxHash64 w :: rest)

/-- All content-window hashes of `getSectionHash`: the loop
`for (size_t i = 0; i < isec->content().size(); i++)`. -/
def windowHashes (xxHash64 : List Nat → Nat) (content : List Nat) :
    Option (List Nat) :=
  hashLoop xxHash64 content (List.range content.length)

/-- `std::unique` on the tail of a vector, given the last element already
kept: drops each element equal to the last kept one. -/
def uniqueConsecAfter (prev : Nat) : List Nat → List Nat
  | [] => []
  | b :: t =>
    if prev = b then uniqueConsecAfter prev t else b :: uniqueConsecAfter b t

/-- `hashes.erase(std::unique(begin, end), end)`: keep the first element of
every run of equal consecutive elements. -/
def uniqueConsec : List Nat → List Nat
  | [] => []
  | a :: t => a :: uniqueConsecAfter a t

/-- `llvm::sort(hashes)` followed by the `std::unique`/`erase` idiom:
sort ascending, then drop consecutive duplicates. -/
def sortDedup (l : List Nat) : List Nat :=
  uniqueConsec (List.insertionSort (· ≤ ·) l)

/-- `ELFSection::getSectionHash`.  `hashes` is the caller-supplied
`SmallVectorImpl<uint64_t> &` as it is on entry; the result is its contents
on return (`none` when a content window slice is out of bounds).
`sectionToIdx` is first converted to a map keyed by `InputSectionBase`
(every `dyn_cast<ELFSection>` succeeds since `classof` returns true); the
converted map is dead — the relocation-hash path that would consume it is
commented out in the source.  Then one hash per content window is appended,
the vector is sorted and consecutive duplicates are erased. -/
def getSectionHash (xxHash64 : List Nat → Nat) (s : ELFSection)
    (hashes : List Nat) (sectionToIdx : List (ELFSection × Nat)) :
    Option (List Nat) :=
  let _elfSectionToIdx : List (InputSectionBase × Nat) :=
    sectionToIdx.map (fun p => (p.1.isec, p.2))
  match windowHashes xxHash64 s.isec.content with
  | none => none
  | some newHashes => some (sortDedup (hashes ++ newHashes))

/-- A concrete stand-in for `llvm::xxHash64` restricted to the byte windows
it is applied to, used only to instantiate witnesses; every theorem below
quantifies over the hash function. -/
def hashModel (w : List Nat) : Nat :=
  w.foldl (fun a b => a * 256 + b) 1

/-! Concrete files and sections used by witnesses and counterexamples. -/

/-- An object file with an empty symbol table. -/
def file0 : ObjFile := ⟨[]⟩

/-- A section with empty content. -/
def secE : ELFSection := ⟨⟨0, ".bss.e", 0, false, [], file0⟩⟩

/-- A section whose content is a single byte. -/
def secOne : ELFSection := ⟨⟨1, ".text.one", 1, true, [42], file0⟩⟩

/-- A section whose content is two bytes (shorter than `windowSize`). -/
def secTwo : ELFSection := ⟨⟨2, ".text.two", 2, true, [1, 2], file0⟩⟩

/-- An object file holding two defined symbols owned by two different
sections (identities 10 and 11). -/
def fileA : ObjFile :=
  ⟨[.defined "f" 16 4 (some 10), .defined "g" 32 8 (some 11)]⟩

/-- The section of `fileA` owning symbol `f`. -/
def secA : ELFSection := ⟨⟨10, ".text.f", 4, true, [0, 1, 2, 3], fileA⟩⟩

/-- The section of `fileA` owning symbol `g`. -/
def secB : ELFSection := ⟨⟨11, ".text.g", 8, true, [4, 5, 6, 7], fileA⟩⟩

/-- An object file of a second kind, holding one non-defined symbol. -/
def fileB : ObjFile := ⟨[.notDefined "ext"]⟩

/-- A section of `fileB`. -/
def secC : ELFSection := ⟨⟨12, ".data.c", 3, false, [8, 9], fileB⟩⟩

/-! Helper lemmas about the `sort` + `unique`/`erase` idiom. -/

/-- Membership is unchanged by `uniqueConsecAfter` once the last kept
element is put back in front. -/
lemma mem_uniqueConsecAfter (a : Nat) (t : List Nat) :
    ∀ p : Nat, a ∈ p :: uniqueConsecAfter p t ↔ a ∈ p :: t := by
  induction t with
  | nil => intro p; simp [uniqueConsecAfter]
  | cons b t ih =>
    intro p
    simp only [uniqueConsecAfter]
    by_cases hpb : p = b
    · subst hpb
      simp only [if_pos rfl]
      have h2 := ih p
      simp only [List.mem_cons] at h2 ⊢
      tauto
    · simp only [if_neg hpb]
      have h2 := ih b
      simp only [List.mem_cons] at h2 ⊢
      tauto

/-- `uniqueConsecAfter` turns a weakly sorted run into a strictly sorted
one. -/
lemma sorted_uniqueConsecAfter (t : List Nat) :
    ∀ p : Nat, List.Pairwise (· ≤ ·) (p :: t) →
      List.Pairwise (· < ·) (p :: uniqueConsecAfter p t) := by
  induction t with
  | nil => intro p _; simp [uniqueConsecAfter]
  | cons b t ih =>
    intro p hp
    simp only [uniqueConsecAfter]
    by_cases hpb : p = b
    · subst hpb
      simp only [if_pos rfl]
      apply ih p
      rcases List.pairwise_cons.mp hp with ⟨h1, h2⟩
      rcases List.pairwise_cons.mp h2 with ⟨_, h4⟩
      exact List.pairwise_cons.mpr
        ⟨fun x hx => h1 x (List.mem_cons_of_mem _ hx), h4⟩
    · simp only [if_neg hpb]
      rcases List.pairwise_cons.mp hp with ⟨h1, h2⟩
      have hb := ih b h2
      refine List.pairwise_cons.mpr ⟨?_, hb⟩
      intro x hx
      have hxm : x ∈ b :: t := (mem_uniqueConsecAfter x t b).mp hx
      have hpb' : p < b := lt_of_le_of_ne (h1 b (List.mem_cons_self b t)) hpb
      rcases List.mem_cons.mp hxm with h | h
      · subst h; exact hpb'
      · exact lt_of_lt_of_le hpb' ((List.pairwise_cons.mp h2).1 x h)

/-- `std::unique` keeps membership. -/
lemma mem_uniqueConsec (a : Nat) (l : List Nat) :
    a ∈ uniqueConsec l ↔ a ∈ l := by
  cases l with
  | nil => simp [uniqueConsec]
  | cons p t =>
    simp only [uniqueConsec]
    exact mem_uniqueConsecAfter a t p

/-- `std::unique` on a weakly sorted vector yields a strictly sorted
vector. -/
lemma sorted_uniqueConsec (l : List Nat) (h : List.Pairwise (· ≤ ·) l) :
    List.Pairwise (· < ·) (uniqueConsec l) := by
  cases l with
  | nil => simp [uniqueConsec]
  | cons p t =>
    simp only [uniqueConsec]
    exact sorted_uniqueConsecAfter t p h

/-- The sorted-deduplicated vector is strictly increasing. -/
lemma sortDedup_sorted (l : List Nat) :
    List.Pairwise (· < ·) (sortDedup l) :=
  sorted_uniqueConsec _ (List.sorted_insertionSort _ l)

/-- The sorted-deduplicated vector holds exactly the values of the input
vector. -/
lemma mem_sortDedup (a : Nat) (l : List Nat) :
    a ∈ sortDedup l ↔ a ∈ l :=
  (mem_uniqueConsec a _).trans ((List.perm_insertionSort _ l).mem_iff)

/-- Unfolding `getSectionHash` when the content-hash loop succeeds. -/
lemma getSectionHash_of_windowHashes (xxh : List Nat → Nat)
    (s : ELFSection) (init : List Nat) (m : List (ELFSection × Nat))
    (nh : List Nat) (h : windowHashes xxh s.isec.content = some nh) :
    getSectionHash xxh s init m = some (sortDedup (init ++ nh)) := by
  simp only [getSectionHash, h]

/-- The content-hash loop fails (out-of-bounds slice at index 0) whenever
the content is non-empty but shorter than the window. -/
lemma windowHashes_short_none (xxh : List Nat → Nat) (content : List Nat)
    (h0 : content ≠ []) (h4 : content.length < windowSize) :
    windowHashes xxh content = none := by
  have hlen : content.length = content.length - 1 + 1 := by
    cases content
    · exact absurd rfl h0
    · simp
  rw [windowHashes, hlen, List.range_succ_eq_map]
  have hs : arraySlice content 0 windowSize = none := by
    rw [arraySlice, if_neg]
    simp only [windowSize] at h4 ⊢
    omega
  simp only [hashLoop, hs]

/-! Claim theorems. -/

/-- C1: whenever `getSectionHash` produces a signature, that signature is
strictly increasing — hence it holds each value at most once — and it holds
a value exactly when the value is among the pre-existing vector entries or
among the computed content-window hashes: repeated identical windows
contribute a single feature (set semantics). -/
theorem c1_signature_sorted_dedup (xxh : List Nat → Nat) (s : ELFSection)
    (init : List Nat) (m : List (ELFSection × Nat)) (out : List Nat)
    (h : getSectionHash xxh s init m = some out) :
    List.Pairwise (· < ·) out ∧ out.Nodup ∧
      ∀ a, a ∈ out ↔
        (a ∈ init ∨ ∃ nh, windowHashes xxh s.isec.content = some nh ∧ a ∈ nh) := by
  rcases hw : windowHashes xxh s.isec.content with _ | nh
  · rw [getSectionHash, hw] at h
    exact Option.noConfusion h
  · rw [getSectionHash_of_windowHashes xxh s init m nh hw] at h
    rcases Option.some.injEq _ _ ▸ h with rfl
    refine ⟨sortDedup_sorted _, ((sortDedup_sorted _).imp Nat.ne_of_lt), ?_⟩
    intro a
    rw [mem_sortDedup, List.mem_append]
    constructor
    · rintro (ha | ha)
      · exact Or.inl ha
      · exact Or.inr ⟨nh, rfl, ha⟩
    · rintro (ha | ⟨nh2, hw2, ha⟩)
      · exact Or.inl ha
      · obtain rfl : nh = nh2 := Option.some.inj hw2
        exact Or.inr ha

/-- C1 witness: at a concrete section with empty content and the vector
`[5, 5, 3]` on entry, the produced signature is `[3, 5]`. -/
theorem c1_signature_sorted_dedup_witness :
    List.Pairwise (· < ·) [3, 5] ∧ ([3, 5] : List Nat).Nodup ∧
      ∀ a, a ∈ [3, 5] ↔
        (a ∈ [5, 5, 3] ∨
          ∃ nh, windowHashes hashModel secE.isec.content = some nh ∧ a ∈ nh) :=
  c1_signature_sorted_dedup hashModel secE [5, 5, 3] [] [3, 5] (by decide)

/-- C2: the content-window access is out of bounds already on a one-byte
section — `content().slice(0, 4)` violates the `slice` precondition
`0 + 4 <= 1` — so `getSectionHash` fails instead of producing the
non-empty signature the claim requires. -/
theorem c2_one_byte_window_oob :
    getSectionHash hashModel secOne [] [] = none ∧
      arraySlice secOne.isec.content 0 windowSize = none := by
  decide

/-- C3 counterexample: on a concrete two-byte section (non-empty, shorter
than the 4-byte window) `getSectionHash` produces no signature at all, so
there is no produced signature to which the content hashing contributed at
most one hash. -/
theorem c3_short_content_counterexample :
    ¬ ∃ out, getSectionHash hashModel secTwo [] [] = some out ∧
      out.length ≤ 1 := by
  rintro ⟨out, hout, -⟩
  have hnone : getSectionHash hashModel secTwo [] [] = none := by decide
  rw [hnone] at hout
  exact Option.noConfusion hout

/-- C3 amended: for every section whose content is non-empty but shorter
than the 4-byte window, the content-hashing loop attempts an out-of-bounds
window slice at index 0, so `getSectionHash` fails and contributes no
signature. -/
theorem c3_short_content_fails (xxh : List Nat → Nat) (s : ELFSection)
    (init : List Nat) (m : List (ELFSection × Nat))
    (h0 : s.isec.content ≠ []) (h4 : s.isec.content.length < windowSize) :
    getSectionHash xxh s init m = none := by
  rw [getSectionHash, windowHashes_short_none xxh s.isec.content h0 h4]

/-- C3 amended witness: the two-byte section fails concretely. -/
theorem c3_short_content_fails_witness :
    getSectionHash hashModel secTwo [7] [] = none :=
  c3_short_content_fails hashModel secTwo [7] [] (by decide) (by decide)

/-- C4 counterexample: on a concrete file with two sections and one symbol
owned by each, `getSymbols` on the first section does not return that
section's owned symbols: it also returns the symbol `g`, whose owning
section is the other section. -/
theorem c4_foreign_symbol_counterexample :
    (ELFSection.getSymbols secA initialState).1 ≠ ownedSymbols secA ∧
      (⟨.defined "g" 32 8 (some 11)⟩ : ELFSymbol) ∈
        (ELFSection.getSymbols secA initialState).1 ∧
      LldSymbol.ownerId (.defined "g" 32 8 (some 11)) = some secB.isec.id ∧
      secB.isec.id ≠ secA.isec.id := by
  decide

/-- C4 amended: on first access (empty cache) `getSymbols` returns a
wrapper for every symbol of the section's containing object file — the
file's whole symbol table, which may include symbols owned by other
sections of the same file. -/
theorem c4_getSymbols_returns_file_table (s : ELFSection)
    (st : AdapterState) (h : st.symbolCache s.isec.id = []) :
    (ELFSection.getSymbols s st).1 = s.isec.file.symbols.map ELFSymbol.mk := by
  simp [ELFSection.getSymbols, h]

/-- C4 amended witness: concretely, `getSymbols` on `secA` from the initial
state returns wrappers for both symbols of `fileA`. -/
theorem c4_getSymbols_returns_file_table_witness :
    (ELFSection.getSymbols secA initialState).1 =
      fileA.symbols.map ELFSymbol.mk :=
  c4_getSymbols_returns_file_table secA initialState (by decide)

/-- C5 counterexample: the returned symbol list is backed by a
process-wide `static` buffer.  After `getSymbols` on `secA`, the buffer
(which the `ArrayRef` returned for `secA` points into) holds `fileA`'s
wrappers; a subsequent `getSymbols` on `secC` overwrites that same shared
buffer, so the data observable through `secA`'s previously returned view
changes. -/
theorem c5_static_buffer_counterexample :
    ((ELFSection.getSymbols secA initialState).2).staticResult =
        (ELFSection.getSymbols secA initialState).1 ∧
      ((ELFSection.getSymbols secC
          (ELFSection.getSymbols secA initialState).2).2).staticResult ≠
        ((ELFSection.getSymbols secA initialState).2).staticResult := by
  decide

/-- C5 amended: besides the per-section memoized symbol-wrapper cache the
adapter keeps one process-wide `static` result buffer.  A `getSymbols` call
on one section leaves every other section's memoized cache unchanged, but
overwrites the shared static buffer with its own result, which is what any
previously returned view now observes. -/
theorem c5_cache_frame_static_clobber (s : ELFSection) (st : AdapterState)
    (i : Nat) (h : i ≠ s.isec.id) :
    ((ELFSection.getSymbols s st).2).symbolCache i = st.symbolCache i ∧
      ((ELFSection.getSymbols s st).2).staticResult =
        (ELFSection.getSymbols s st).1 := by
  simp [ELFSection.getSymbols, h]

/-- C5 amended witness: concretely, calling `getSymbols` on `secA` leaves
the cache entry of section identity 11 unchanged while the static buffer
holds the returned list. -/
theorem c5_cache_frame_static_clobber_witness :
    ((ELFSection.getSymbols secA initialState).2).symbolCache 11 =
        initialState.symbolCache 11 ∧
      ((ELFSection.getSymbols secA initialState).2).staticResult =
        (ELFSection.getSymbols secA initialState).1 :=
  c5_cache_frame_static_clobber secA initialState 11 (by decide)

/-- C6: `hasValidData` is false exactly when the section's content is
empty. -/
theorem c6_hasValidData_iff_empty (s : ELFSection) :
    ELFSection.hasValidData s = false ↔ s.isec.content = [] := by
  simp [ELFSection.hasValidData]

/-- C7: a section with empty content is not hashed: given an empty vector
on entry, `getSectionHash` succeeds with the empty signature. -/
theorem c7_empty_content_empty_signature (xxh : List Nat → Nat)
    (s : ELFSection) (m : List (ELFSection × Nat))
    (h : s.isec.content = []) :
    getSectionHash xxh s [] m = some [] := by
  have hw : windowHashes xxh s.isec.content = some [] := by
    rw [h]; rfl
  rw [getSectionHash_of_windowHashes xxh s [] m [] hw]
  rfl

/-- C7 witness: the concrete empty-content section gets the empty
signature. -/
theorem c7_empty_content_empty_signature_witness :
    getSectionHash hashModel secE [] [] = some [] :=
  c7_empty_content_empty_signature hashModel secE [] (by decide)

/-- C8: `asDefinedSymbol` is non-null (returning the wrapper itself)
exactly on defined symbols and null on non-defined ones; `getValue` and
`getSize` return the resolved value and size of a defined symbol and `0`
for a non-defined one. -/
theorem c8_symbol_accessors :
    (∀ (s : ELFSymbol),
        (ELFSymbol.asDefinedSymbol s).isSome = s.sym.isDefinedSym) ∧
    (∀ (n : String) (v z : Nat) (o : Option Nat),
        ELFSymbol.asDefinedSymbol ⟨.defined n v z o⟩ =
            some ⟨.defined n v z o⟩ ∧
          ELFSymbol.getValue ⟨.defined n v z o⟩ = v ∧
          ELFSymbol.getSize ⟨.defined n v z o⟩ = z) ∧
    (∀ n : String,
        ELFSymbol.asDefinedSymbol ⟨.notDefined n⟩ = none ∧
          ELFSymbol.getValue ⟨.notDefined n⟩ = 0 ∧
          ELFSymbol.getSize ⟨.notDefined n⟩ = 0) := by
  refine ⟨?_, ?_, ?_⟩
  · rintro ⟨sym⟩
    cases sym <;> rfl
  · intro n v z o
    exact ⟨rfl, rfl, rfl⟩
  · intro n
    exact ⟨rfl, rfl, rfl⟩

/-- C9: the signature does not depend on the `sectionToIdx` map argument:
the map is converted and then never consumed (the relocation-hash path is
commented out), so any two maps give identical results. -/
theorem c9_sectionToIdx_irrelevant (xxh : List Nat → Nat) (s : ELFSection)
    (init : List Nat) (m1 m2 : List (ELFSection × Nat)) :
    getSectionHash xxh s init m1 = getSectionHash xxh s init m2 := rfl

/-- C10: `getSectionHash` appends to the caller-supplied vector without
clearing it: whenever the content-hash loop yields window hashes `nh`, the
call succeeds and the final vector is the sorted deduplication of the
pre-existing entries together with `nh` — strictly increasing, holding a
value exactly when it was pre-existing or newly computed. -/
theorem c10_appends_to_existing_vector (xxh : List Nat → Nat)
    (s : ELFSection) (init : List Nat) (m : List (ELFSection × Nat))
    (nh : List Nat) (h : windowHashes xxh s.isec.content = some nh) :
    ∃ out, getSectionHash xxh s init m = some out ∧
      List.Pairwise (· < ·) out ∧
      ∀ a, a ∈ out ↔ (a ∈ init ∨ a ∈ nh) := by
  refine ⟨sortDedup (init ++ nh),
    getSectionHash_of_windowHashes xxh s init m nh h,
    sortDedup_sorted _, ?_⟩
  intro a
  rw [mem_sortDedup, List.mem_append]

/-- C10 witness: with the vector `[7, 2, 7]` on entry and an empty-content
section (no new window hashes), the result keeps the pre-existing entries,
sorted and deduplicated. -/
theorem c10_appends_to_existing_vector_witness :
    ∃ out, getSectionHash hashModel secE [7, 2, 7] [] = some out ∧
      List.Pairwise (· < ·) out ∧
      ∀ a, a ∈ out ↔ (a ∈ [7, 2, 7] ∨ a ∈ ([] : List Nat)) :=
  c10_appends_to_existing_vector hashModel secE [7, 2, 7] [] [] (by decide)

end BPOrderer
